import Mathlib

/-!
Verification of the filename-normalization pipeline and route handlers of
the single-file web file manager in src/app.py. Python strings are embedded
as lists of Unicode code points; library calls (os.path.splitext, werkzeug
secure_filename, str.lower, str.strip, str.split, posixpath.join) are
embedded faithfully for a posix system. Unicode normalization (NFC, NFKD),
the optional transliterate library and the random uuid draw are supplied as
an explicit environment, so theorems quantify over them or constrain them
by hypotheses that the real implementations satisfy.
-/

namespace App

/-- Python strings are modelled as lists of Unicode code points. -/
abbrev PyStr := List Char

/-- The safe character class of the werkzeug sanitizer: the regular
expression class of A-Z, a-z, 0-9, underscore, dot and hyphen. -/
def isSafeChar (c : Char) : Bool :=
  (65 ≤ c.toNat && c.toNat ≤ 90) || (97 ≤ c.toNat && c.toNat ≤ 122) ||
  (48 ≤ c.toNat && c.toNat ≤ 57) || c.toNat == 95 || c.toNat == 46 || c.toNat == 45

/-- Lowercase hexadecimal digits, the alphabet of a uuid4 string body. -/
def isHexLowerChar (c : Char) : Bool :=
  (48 ≤ c.toNat && c.toNat ≤ 57) || (97 ≤ c.toNat && c.toNat ≤ 102)

/-- ASCII whitespace as recognized by the Python str.split with no
arguments: space, tab, linefeed, vertical tab, formfeed, carriage return
and the separator control codes 28 to 31. Only ASCII input reaches the one
split call in this development. -/
def isPySpace (c : Char) : Bool :=
  c.toNat == 32 || (9 ≤ c.toNat && c.toNat ≤ 13) || (28 ≤ c.toNat && c.toNat ≤ 31)

/-- Index of the last occurrence of a character in a string, the Python
str.rfind used by os.path.splitext, with none for absent. -/
def rfindIdx (c : Char) : PyStr → Option Nat
  | [] => none
  | x :: xs =>
    match rfindIdx c xs with
    | some j => some (j + 1)
    | none => if x == c then some 0 else none

/-- Embedding of os.path.splitext for a posix system, from the CPython
genericpath module: split off the suffix starting at the last dot, unless
the last dot lies at or before the last slash, or the part of the final
path component in front of that dot consists only of dots (so names such
as .gitignore have no extension). -/
def splitext (p : PyStr) : PyStr × PyStr :=
  match rfindIdx '.' p with
  | none => (p, [])
  | some d =>
    match rfindIdx '/' p with
    | none =>
      if (p.take d).all (fun c => c == '.') then (p, [])
      else (p.take d, p.drop d)
    | some s =>
      if d ≤ s then (p, [])
      else if ((p.drop (s + 1)).take (d - (s + 1))).all (fun c => c == '.') then (p, [])
      else (p.take d, p.drop d)

/-- The extension as the claim text reads it: the part of the string from
the last dot on, with no special handling of leading dots or slashes. -/
def lastDotSuffix (p : PyStr) : PyStr :=
  match rfindIdx '.' p with
  | some j => p.drop j
  | none => []

/-- Python str.strip with an explicit set of characters: remove leading
and trailing characters belonging to the set. -/
def pyStrip (cs : List Char) (s : PyStr) : PyStr :=
  ((s.dropWhile (fun c => cs.contains c)).reverse.dropWhile (fun c => cs.contains c)).reverse

/-- Helper for the Python whitespace split: accumulate the current word in
reverse, emitting it at each whitespace run and at the end. -/
def pySplitWsAux : PyStr → PyStr → List PyStr
  | [], acc => if acc.isEmpty then [] else [acc.reverse]
  | c :: rest, acc =>
    if isPySpace c then
      if acc.isEmpty then pySplitWsAux rest []
      else acc.reverse :: pySplitWsAux rest []
    else pySplitWsAux rest (c :: acc)

/-- Python str.split with no arguments: split on whitespace runs,
discarding empty pieces. -/
def pySplitWs (s : PyStr) : List PyStr := pySplitWsAux s []

/-- Embedding of werkzeug secure_filename on a posix system: NFKD
normalize, drop non-ASCII code points, turn path separators into spaces,
split on whitespace and rejoin with underscores, delete every character
outside the safe class, and strip dots and underscores from both ends.
The NFKD normalization is taken as an explicit function argument. -/
def secure_filename (nfkd : PyStr → PyStr) (filename : PyStr) : PyStr :=
  pyStrip ['.', '_']
    ((List.intercalate ['_']
        (pySplitWs
          (((nfkd filename).filter (fun c => decide (c.toNat < 128))).map
            (fun c => if c == '/' then ' ' else c)))).filter isSafeChar)

/-- First-match association lookup, the semantics of a Python dict get
restricted to the finite literal dictionaries of the source. -/
def assocLookup {β : Type} (c : Char) : List (Char × β) → Option β
  | [] => none
  | (k, v) :: es => if c == k then some v else assocLookup c es

/-- The uppercase-to-lowercase table of the Python str.lower restricted to
the code points relevant to this program: the ASCII letters and the
Russian Cyrillic letters. Every other code point is left unchanged by
pyLowerChar below. -/
def LOWER_MAP : List (Char × Char) :=
  [('A', 'a'), ('B', 'b'), ('C', 'c'), ('D', 'd'), ('E', 'e'), ('F', 'f'),
   ('G', 'g'), ('H', 'h'), ('I', 'i'), ('J', 'j'), ('K', 'k'), ('L', 'l'),
   ('M', 'm'), ('N', 'n'), ('O', 'o'), ('P', 'p'), ('Q', 'q'), ('R', 'r'),
   ('S', 's'), ('T', 't'), ('U', 'u'), ('V', 'v'), ('W', 'w'), ('X', 'x'),
   ('Y', 'y'), ('Z', 'z'),
   ('А', 'а'), ('Б', 'б'), ('В', 'в'), ('Г', 'г'), ('Д', 'д'), ('Е', 'е'),
   ('Ж', 'ж'), ('З', 'з'), ('И', 'и'), ('Й', 'й'), ('К', 'к'), ('Л', 'л'),
   ('М', 'м'), ('Н', 'н'), ('О', 'о'), ('П', 'п'), ('Р', 'р'), ('С', 'с'),
   ('Т', 'т'), ('У', 'у'), ('Ф', 'ф'), ('Х', 'х'), ('Ц', 'ц'), ('Ч', 'ч'),
   ('Ш', 'ш'), ('Щ', 'щ'), ('Ъ', 'ъ'), ('Ы', 'ы'), ('Ь', 'ь'), ('Э', 'э'),
   ('Ю', 'ю'), ('Я', 'я'), ('Ё', 'ё')]

/-- Python str.lower on one code point, restricted to the ranges in
LOWER_MAP. -/
def pyLowerChar (c : Char) : Char := (assocLookup c LOWER_MAP).getD c

/-- The literal RUSSIAN_TO_LATIN dictionary of the source, lines 41 to 51:
a manual transliteration of the Russian alphabet, both cases, to Latin
letters and digraphs, with hard and soft signs mapped to the empty
string. -/
def RUSSIAN_TO_LATIN : List (Char × PyStr) :=
  [('а', ['a']), ('б', ['b']), ('в', ['v']), ('г', ['g']), ('д', ['d']),
   ('е', ['e']), ('ё', ['y', 'o']), ('ж', ['z', 'h']), ('з', ['z']),
   ('и', ['i']), ('й', ['y']), ('к', ['k']), ('л', ['l']), ('м', ['m']),
   ('н', ['n']), ('о', ['o']), ('п', ['p']), ('р', ['r']), ('с', ['s']),
   ('т', ['t']), ('у', ['u']), ('ф', ['f']), ('х', ['k', 'h']),
   ('ц', ['t', 's']), ('ч', ['c', 'h']), ('ш', ['s', 'h']),
   ('щ', ['s', 'c', 'h']), ('ъ', []), ('ы', ['y']), ('ь', []),
   ('э', ['e']), ('ю', ['y', 'u']), ('я', ['y', 'a']),
   ('А', ['A']), ('Б', ['B']), ('В', ['V']), ('Г', ['G']), ('Д', ['D']),
   ('Е', ['E']), ('Ё', ['Y', 'o']), ('Ж', ['Z', 'h']), ('З', ['Z']),
   ('И', ['I']), ('Й', ['Y']), ('К', ['K']), ('Л', ['L']), ('М', ['M']),
   ('Н', ['N']), ('О', ['O']), ('П', ['P']), ('Р', ['R']), ('С', ['S']),
   ('Т', ['T']), ('У', ['U']), ('Ф', ['F']), ('Х', ['K', 'h']),
   ('Ц', ['T', 's']), ('Ч', ['C', 'h']), ('Ш', ['S', 'h']),
   ('Щ', ['S', 'c', 'h']), ('Ъ', []), ('Ы', ['Y']), ('Ь', []),
   ('Э', ['E']), ('Ю', ['Y', 'u']), ('Я', ['Y', 'a'])]

/-- The manual_transliterate helper of the source, lines 53 to 54: map the
dictionary over the text character by character, keeping unmapped
characters as they are, and join. -/
def manual_transliterate (text : PyStr) : PyStr :=
  (text.map (fun c => (assocLookup c RUSSIAN_TO_LATIN).getD [c])).flatten

/-- Environment of the normalizer: the two Unicode normalization forms,
the optional transliterate library function (none when the import at the
top of the source failed; a raising call is modelled by an error value),
and the string that str applied to a fresh uuid4 value produces. -/
structure Env where
  nfc : PyStr → PyStr
  nfkd : PyStr → PyStr
  translit : Option (PyStr → Except Unit PyStr)
  uuidStr : PyStr

/-- Properties every value of str applied to uuid.uuid4() has, and the
only ones used in proofs: 36 characters long, made of lowercase
hexadecimal digits and hyphens. -/
def IsUuidStr (u : PyStr) : Prop :=
  u.length = 36 ∧ ∀ c ∈ u, (isHexLowerChar c || c.toNat == 45) = true

instance (u : PyStr) : Decidable (IsUuidStr u) := by
  unfold IsUuidStr; infer_instance

/-- The emptiness test the source applies three times, lines 67, 76 and
82: the name is falsy, or strips to nothing when underscores are removed
from both ends. -/
def isEmptyish (s : PyStr) : Bool :=
  s.isEmpty || (pyStrip ['_'] s).isEmpty

/-- The library-transliteration step of normalize_filename, source lines
68 to 75: when the transliterate import succeeded, run it on the raw base
and sanitize the result; a raising call is caught and leaves the running
value unchanged; when the import failed the step is skipped. -/
def nfTranslitStep (env : Env) (name safe0 : PyStr) : PyStr :=
  match env.translit with
  | some tf =>
    match tf name with
    | Except.ok s => secure_filename env.nfkd s
    | Except.error _ => safe0
  | none => safe0

/-- The value of safe_name after the transliteration stages, source lines
64 to 80: the sanitizer on the raw base; if that is empty-ish, the library
transliteration step; if still empty-ish, the sanitized manual
transliteration. -/
def nfSafe1 (env : Env) (name : PyStr) : PyStr :=
  if isEmptyish (secure_filename env.nfkd name) then
    if isEmptyish (nfTranslitStep env name (secure_filename env.nfkd name)) then
      secure_filename env.nfkd (manual_transliterate name)
    else nfTranslitStep env name (secure_filename env.nfkd name)
  else secure_filename env.nfkd name

/-- The base-name part of normalize_filename, source lines 63 to 85: the
transliteration chain above, then the uuid fallback, the first eight
characters of str of a fresh uuid4, when the chain stayed empty-ish. -/
def nfBase (env : Env) (name : PyStr) : PyStr :=
  if isEmptyish (nfSafe1 env name) then env.uuidStr.take 8 else nfSafe1 env name

/-- The normalize_filename function of the source, lines 57 to 90, on the
path where the surrounding try block does not raise (it cannot for a
string argument): NFC-normalize, split the extension off with
os.path.splitext, compute the safe base, and reattach the lower-cased
extension. -/
def normalize_filename (env : Env) (filename : PyStr) : PyStr :=
  nfBase env (splitext (env.nfc filename)).1 ++
    ((splitext (env.nfc filename)).2.map pyLowerChar)

/-- Python runtime values needed for the except branch of the source: a
str, or the uuid.UUID object returned by uuid.uuid4, carrying its
canonical string. -/
inductive PyVal where
  | pstr (s : PyStr)
  | uuidObj (canonical : PyStr)

/-- Python slicing v[:8]: defined on str; a uuid.UUID object supports no
item access, so slicing it raises a TypeError. -/
def pySliceTo8 : PyVal → Except PyStr PyStr
  | PyVal.pstr s => Except.ok (s.take 8)
  | PyVal.uuidObj _ => Except.error ("TypeError: UUID object is not subscriptable".toList)

/-- The except branch of normalize_filename, source lines 91 to 97: take
the lower-cased extension of the raw argument by os.path.splitext and
prepend the first eight characters of a fresh uuid. The source slices the
uuid.UUID object itself, uuid.uuid4()[:8], without converting it to a
string first, unlike line 84 which slices str(uuid.uuid4()); the result of
the branch is whatever that slicing produces. -/
def ultimate_fallback (env : Env) (filename : PyStr) : Except PyStr PyStr :=
  match pySliceTo8 (PyVal.uuidObj env.uuidStr) with
  | Except.ok s => Except.ok (s ++ (splitext filename).2.map pyLowerChar)
  | Except.error e => Except.error e

/-- The unit labels of format_file_size, source line 103. -/
def FFS_UNITS : List PyStr := ["B".toList, "KB".toList, "MB".toList, "GB".toList]

/-- The while loop of format_file_size, source lines 106 to 108, with
explicit fuel: the source divides the float by 1024 and advances the unit
index while the size is at least 1024 and the index is below 3. Division
by 1024 is exact in binary floating point and every byte count below 2 to
the 53 converts to float exactly, so after k iterations the float holds
exactly size_bytes divided by 1024 to the k; the embedding therefore
tracks only the index, and the loop guard, the current value at least
1024, reads size_bytes at least 1024 to the idx plus 1. The index grows by
one per iteration, so fuel 3 from index 0 always runs the loop to
completion. -/
def ffsIdx : Nat → Nat → Nat → Nat
  | 0, _, idx => idx
  | fuel + 1, n, idx =>
    if 1024 ^ (idx + 1) ≤ n ∧ idx < 3 then ffsIdx fuel n (idx + 1)
    else idx

/-- Round the exact value num / den, den positive, to the nearest integer
with ties to even: the rounding of a correctly printed binary float. -/
def roundHalfEvenDiv (num den : Nat) : Nat :=
  if 2 * (num % den) < den then num / den
  else if den < 2 * (num % den) then num / den + 1
  else if (num / den) % 2 = 0 then num / den else num / den + 1

/-- Python percent .2f formatting of the exact nonnegative value
num / den: round the hundredths half to even, then print the integer part,
a dot, and two digits. -/
def fmt2fDiv (num den : Nat) : PyStr :=
  Nat.toDigits 10 (roundHalfEvenDiv (100 * num) den / 100) ++
    '.' :: (if roundHalfEvenDiv (100 * num) den % 100 < 10 then
        '0' :: Nat.toDigits 10 (roundHalfEvenDiv (100 * num) den % 100)
      else Nat.toDigits 10 (roundHalfEvenDiv (100 * num) den % 100))

/-- The format_file_size function of the source, lines 100 to 109: zero is
the fixed string, and otherwise the loop picks the unit index and the
value size_bytes over 1024 to the index is printed with two decimals and
the unit label. Exact on every byte count below 2 to the 53, where the
float arithmetic of the source is exact. -/
def format_file_size (size_bytes : Nat) : PyStr :=
  if size_bytes = 0 then "0 B".toList
  else
    fmt2fDiv size_bytes (1024 ^ ffsIdx 3 size_bytes 0) ++
      ' ' :: FFS_UNITS.getD (ffsIdx 3 size_bytes 0) []

/-- The fixed text-extension table of the preview route, source line
172. -/
def TEXT_EXTS : List PyStr :=
  [".txt".toList, ".py".toList, ".cpp".toList, ".h".toList, ".json".toList, ".xml".toList]

/-- Python str.endswith: the second string is a suffix of the first. When
the candidate suffix is longer than the string the dropped copy keeps its
original length and the equality test fails, as it should. -/
def endsWithList (s t : PyStr) : Bool := s.drop (s.length - t.length) == t

/-- The three preview types the source distinguishes, line 171 to 179. -/
inductive FileType where
  | text
  | image
  | video
deriving DecidableEq

/-- The classification logic of the preview route, source lines 171 to
179: lower-case the filename and compare against the fixed suffix tables,
in order text, image, video; no match yields no type. -/
def preview_classify (filename : PyStr) : Option FileType :=
  if TEXT_EXTS.any (fun e => endsWithList (filename.map pyLowerChar) e) then
    some FileType.text
  else if endsWithList (filename.map pyLowerChar) (".jpg".toList)
      || endsWithList (filename.map pyLowerChar) (".png".toList) then
    some FileType.image
  else if endsWithList (filename.map pyLowerChar) (".mp4".toList) then
    some FileType.video
  else none

/-- The upload directory constant of the source, line 38. -/
def LOCAL_UPLOAD_DIR : PyStr := "/home/sa1den/mysite/uploads".toList

/-- posixpath.join for two components: an absolute second component wins;
otherwise insert a slash unless the first component is empty or already
ends with one. -/
def os_path_join (a b : PyStr) : PyStr :=
  if b.head? == some '/' then b
  else if a.isEmpty || a.getLast? == some '/' then a ++ b
  else a ++ '/' :: b

/-- A flash notice: message text and category. -/
structure Flash where
  message : PyStr
  category : PyStr
deriving DecidableEq

/-- The only response the delete route can produce: a redirect to the
index page. -/
inductive HttpResp where
  | redirectIndex
deriving DecidableEq

/-- os.remove over an abstract directory state, the list of stored paths:
removing a missing path raises FileNotFoundError, embedded as an error
value carrying the strerror text. -/
def os_remove (fs : List PyStr) (path : PyStr) : Except PyStr (List PyStr) :=
  if path ∈ fs then Except.ok (fs.erase path)
  else Except.error ("No such file or directory".toList)

/-- The delete route, source lines 223 to 233: join the path, try to
remove it, flash success or error, and in both cases redirect to the index
page. -/
def delete_route (fs : List PyStr) (filename : PyStr) :
    List PyStr × Flash × HttpResp :=
  match os_remove fs (os_path_join LOCAL_UPLOAD_DIR filename) with
  | Except.ok fs2 =>
      (fs2,
       ⟨"File ".toList ++ filename ++ " deleted successfully.".toList, "success".toList⟩,
       HttpResp.redirectIndex)
  | Except.error e =>
      (fs,
       ⟨"Error deleting file: ".toList ++ e, "error".toList⟩,
       HttpResp.redirectIndex)

/-- The three ways the upload route can leave its name-checking prefix,
source lines 187 to 197. -/
inductive UploadOutcome where
  | noFile
  | invalidName
  | saved (filename : PyStr)
deriving DecidableEq

/-- The upload route, source lines 187 to 197, up to the point where the
file is written: a missing file field flashes and redirects, an empty
normalized name would flash the invalid-filename error, and otherwise the
file is saved under the normalized name. -/
def upload_route (env : Env) (fileField : Option PyStr) : UploadOutcome :=
  match fileField with
  | none => UploadOutcome.noFile
  | some raw =>
    if (normalize_filename env raw).isEmpty then UploadOutcome.invalidName
    else UploadOutcome.saved (normalize_filename env raw)

/-- The character class of the base in the claimed upload shape: lowercase
letters, digits, underscore, hyphen. -/
def isLowerSafeChar (c : Char) : Bool :=
  (97 ≤ c.toNat && c.toNat ≤ 122) || (48 ≤ c.toNat && c.toNat ≤ 57) ||
  c.toNat == 95 || c.toNat == 45

/-- The saved-name shape claimed for the Cyrillic upload: a non-empty base
of lowercase letters, digits, underscores or hyphens, then the literal
suffix .jpg. -/
def matchesLowerJpg (s : PyStr) : Bool :=
  decide (5 ≤ s.length) && (s.drop (s.length - 4) == ".jpg".toList) &&
  (s.take (s.length - 4)).all isLowerSafeChar

/-- A concrete environment: identity Unicode normalizations (correct for
every already-composed, decomposition-free input used at witnesses and
counterexamples), the transliterate library absent, and a fixed
well-formed uuid string. -/
def envW : Env :=
  ⟨fun s => s, fun s => s, none, "00000000-0000-4000-8000-000000000000".toList⟩

lemma not_mem_of_rfindIdx_none {c : Char} :
    ∀ {l : PyStr}, rfindIdx c l = none → c ∉ l := by
  intro l
  induction l with
  | nil => intro _ h; exact absurd h (List.not_mem_nil c)
  | cons x xs ih =>
    intro h
    simp only [rfindIdx] at h
    cases hx : rfindIdx c xs with
    | some j => rw [hx] at h; exact absurd h (by simp)
    | none =>
      rw [hx] at h
      by_cases hxc : (x == c) = true
      · rw [if_pos hxc] at h; exact absurd h (by simp)
      · intro hm
        rcases List.mem_cons.mp hm with h1 | h2
        · subst h1; simp at hxc
        · exact ih hx h2

lemma not_mem_drop_of_rfindIdx_some {c : Char} :
    ∀ {l : PyStr} {j m : Nat}, rfindIdx c l = some j → j < m → c ∉ l.drop m := by
  intro l
  induction l with
  | nil => intro j m h _; simp [rfindIdx] at h
  | cons x xs ih =>
    intro j m h hjm
    simp only [rfindIdx] at h
    cases m with
    | zero => omega
    | succ n =>
      simp only [List.drop_succ_cons]
      cases hx : rfindIdx c xs with
      | some j2 =>
        rw [hx] at h
        have hj : j = j2 + 1 := by
          have := h; simp at this; omega
        exact ih hx (by omega)
      | none =>
        have hnx : c ∉ xs := not_mem_of_rfindIdx_none hx
        intro hmem
        exact hnx (List.drop_subset _ _ hmem)

lemma splitext_append (p : PyStr) : (splitext p).1 ++ (splitext p).2 = p := by
  cases hd : rfindIdx '.' p with
  | none => simp [splitext, hd]
  | some d =>
    cases hs : rfindIdx '/' p with
    | none =>
      simp only [splitext, hd, hs]
      split <;> simp [List.take_append_drop]
    | some s =>
      simp only [splitext, hd, hs]
      split
      · simp
      · split <;> simp [List.take_append_drop]

lemma splitext_no_slash (p : PyStr) : '/' ∉ (splitext p).2 := by
  cases hd : rfindIdx '.' p with
  | none => simp [splitext, hd]
  | some d =>
    cases hs : rfindIdx '/' p with
    | none =>
      simp only [splitext, hd, hs]
      split
      · simp
      · intro hm
        exact not_mem_of_rfindIdx_none hs (List.drop_subset _ _ hm)
    | some s =>
      simp only [splitext, hd, hs]
      by_cases hds : d ≤ s
      · rw [if_pos hds]; simp
      · rw [if_neg hds]
        split
        · simp
        · exact not_mem_drop_of_rfindIdx_some hs (by omega)

lemma mem_dropWhile_imp {p : Char → Bool} {a : Char} :
    ∀ {l : PyStr}, a ∈ l.dropWhile p → a ∈ l := by
  intro l
  induction l with
  | nil => intro h; exact absurd h (by simp)
  | cons x xs ih =>
    intro h
    by_cases hx : p x = true
    · rw [List.dropWhile_cons_of_pos hx] at h
      exact List.mem_cons_of_mem _ (ih h)
    · rw [List.dropWhile_cons_of_neg hx] at h
      exact h

lemma mem_pyStrip_imp {cs : List Char} {a : Char} {s : PyStr} (h : a ∈ pyStrip cs s) :
    a ∈ s := by
  unfold pyStrip at h
  rw [List.mem_reverse] at h
  have h2 := mem_dropWhile_imp h
  rw [List.mem_reverse] at h2
  exact mem_dropWhile_imp h2

lemma pyStrip_all {cs : List Char} {p : Char → Bool} {s : PyStr} (h : s.all p = true) :
    (pyStrip cs s).all p = true := by
  rw [List.all_eq_true] at *
  intro x hx
  exact h x (mem_pyStrip_imp hx)

lemma filter_all_self (p : Char → Bool) (l : PyStr) : (l.filter p).all p = true := by
  rw [List.all_eq_true]
  intro x hx
  exact (List.mem_filter.mp hx).2

lemma secure_all_safe (nfkd : PyStr → PyStr) (x : PyStr) :
    (secure_filename nfkd x).all isSafeChar = true :=
  pyStrip_all (filter_all_self _ _)

lemma assocLookup_mem {β : Type} {c : Char} {b : β} :
    ∀ {l : List (Char × β)}, assocLookup c l = some b → (c, b) ∈ l := by
  intro l
  induction l with
  | nil => intro h; exact absurd h (by simp [assocLookup])
  | cons kv es ih =>
    intro h
    rcases kv with ⟨k, v⟩
    simp only [assocLookup] at h
    by_cases hk : (c == k) = true
    · rw [if_pos hk] at h
      have hc : c = k := by
        have := hk; simp at this; exact this
      have hv : v = b := by
        have := h; simp at this; exact this
      subst hc; subst hv; exact List.mem_cons_self _ _
    · rw [if_neg hk] at h
      exact List.mem_cons_of_mem _ (ih h)

lemma pyLowerChar_idem (c : Char) : pyLowerChar (pyLowerChar c) = pyLowerChar c := by
  unfold pyLowerChar
  cases h : assocLookup c LOWER_MAP with
  | none => simp [h]
  | some b =>
    have hb : (c, b) ∈ LOWER_MAP := assocLookup_mem h
    have hall : LOWER_MAP.all (fun q => (assocLookup q.2 LOWER_MAP).isNone) = true := by decide
    have hn := List.all_eq_true.mp hall (c, b) hb
    simp only [Option.isNone_iff_eq_none] at hn
    simp [h, hn]

lemma pyLowerChar_eq_slash {c : Char} (h : pyLowerChar c = '/') : c = '/' := by
  unfold pyLowerChar at h
  cases hl : assocLookup c LOWER_MAP with
  | none => rw [hl] at h; simpa using h
  | some b =>
    rw [hl] at h
    simp only [Option.getD_some] at h
    have hb : (c, b) ∈ LOWER_MAP := assocLookup_mem hl
    have hall : LOWER_MAP.all (fun q => !(q.2 == '/')) = true := by decide
    have hnb := List.all_eq_true.mp hall (c, b) hb
    subst h
    simp at hnb

lemma safeChar_of_uuidChar {c : Char} (h : (isHexLowerChar c || c.toNat == 45) = true) :
    isSafeChar c = true := by
  simp only [isHexLowerChar, isSafeChar, Bool.or_eq_true, Bool.and_eq_true,
    decide_eq_true_eq, beq_iff_eq] at *
  omega

lemma uuid_take_ne_nil {u : PyStr} (h : IsUuidStr u) : u.take 8 ≠ [] := by
  cases u with
  | nil => simp [IsUuidStr] at h
  | cons c cs =>
    rw [List.take_succ_cons]
    exact List.cons_ne_nil _ _

lemma uuid_take_all_safe {u : PyStr} (h : IsUuidStr u) :
    (u.take 8).all isSafeChar = true := by
  rw [List.all_eq_true]
  intro c hc
  exact safeChar_of_uuidChar (h.2 c (List.take_subset _ _ hc))

lemma isEmptyish_false_ne_nil {s : PyStr} (h : isEmptyish s = false) : s ≠ [] := by
  intro hnil
  rw [hnil] at h
  exact absurd h (by decide)

lemma nfTranslitStep_is_secure (env : Env) (name : PyStr) :
    ∃ x, nfTranslitStep env name (secure_filename env.nfkd name) =
      secure_filename env.nfkd x := by
  cases htl : env.translit with
  | none => exact ⟨name, by simp [nfTranslitStep, htl]⟩
  | some tf =>
    cases htn : tf name with
    | ok s => exact ⟨s, by simp [nfTranslitStep, htl, htn]⟩
    | error e => exact ⟨name, by simp [nfTranslitStep, htl, htn]⟩

lemma nfSafe1_is_secure (env : Env) (name : PyStr) :
    ∃ x, nfSafe1 env name = secure_filename env.nfkd x := by
  unfold nfSafe1
  split
  · split
    · exact ⟨manual_transliterate name, rfl⟩
    · exact nfTranslitStep_is_secure env name
  · exact ⟨name, rfl⟩

lemma nfBase_all_safe (env : Env) (name : PyStr) (h : IsUuidStr env.uuidStr) :
    (nfBase env name).all isSafeChar = true := by
  unfold nfBase
  split
  · exact uuid_take_all_safe h
  · obtain ⟨x, hx⟩ := nfSafe1_is_secure env name
    rw [hx]
    exact secure_all_safe _ _

lemma nfBase_ne_nil (env : Env) (name : PyStr) (h : IsUuidStr env.uuidStr) :
    nfBase env name ≠ [] := by
  unfold nfBase
  split
  · exact uuid_take_ne_nil h
  · next hne =>
    rw [Bool.not_eq_true] at hne
    exact isEmptyish_false_ne_nil hne

lemma normalize_ne_nil (env : Env) (input : PyStr) (h : IsUuidStr env.uuidStr) :
    normalize_filename env input ≠ [] := by
  unfold normalize_filename
  intro hc
  exact nfBase_ne_nil env (splitext (env.nfc input)).1 h (List.append_eq_nil.mp hc).1

lemma normalize_no_slash (env : Env) (input : PyStr) (h : IsUuidStr env.uuidStr) :
    '/' ∉ normalize_filename env input := by
  intro hm
  unfold normalize_filename at hm
  rcases List.mem_append.mp hm with h1 | h2
  · have hs := nfBase_all_safe env (splitext (env.nfc input)).1 h
    have := List.all_eq_true.mp hs _ h1
    exact absurd this (by decide)
  · rcases List.mem_map.mp h2 with ⟨c, hc, hlc⟩
    have hcs : c = '/' := pyLowerChar_eq_slash hlc
    subst hcs
    exact splitext_no_slash _ hc

lemma endsWithList_append (b t : PyStr) : endsWithList (b ++ t) t = true := by
  unfold endsWithList
  rw [List.length_append]
  have hlen : b.length + t.length - t.length = b.length := by omega
  rw [hlen, List.drop_left]
  simp

lemma ffsIdx_le (fuel n : Nat) : ∀ idx, idx ≤ 3 → ffsIdx fuel n idx ≤ 3 := by
  induction fuel with
  | zero => intro idx h; simpa [ffsIdx] using h
  | succ f ih =>
    intro idx h
    unfold ffsIdx
    split
    · next hc => exact ih _ (by omega)
    · exact h

/-- C1: the claim says the except branch of normalize_filename never
raises and returns a random token plus the lower-cased extension. In the
source the branch slices the uuid.UUID object itself, so whenever it is
executed it raises a TypeError instead of returning; the branch never
produces a value, for any environment and any argument. -/
theorem c1_ultimate_fallback_raises (env : Env) (filename : PyStr) :
    ultimate_fallback env filename =
      Except.error ("TypeError: UUID object is not subscriptable".toList) := rfl

/-- C2 counterexample: on the input .gitignore the extension in the sense
of the claim, the part from the last dot of the NFC-normalized input, is
.gitignore itself, but the function returns gitignore, which does not end
with that extension, because os.path.splitext assigns such names no
extension at all. -/
theorem c2_counterexample :
    lastDotSuffix (envW.nfc (".gitignore".toList)) = ".gitignore".toList ∧
    normalize_filename envW (".gitignore".toList) = "gitignore".toList ∧
    endsWithList (normalize_filename envW (".gitignore".toList))
      ((lastDotSuffix (envW.nfc (".gitignore".toList))).map pyLowerChar) = false := by
  decide

/-- C2 amended: for every input and every environment whose uuid string is
well formed, normalize_filename returns a non-empty string that ends with
the lower-cased extension of the NFC-normalized input as computed by
os.path.splitext (the suffix from the last dot of the final path
component, except that a component consisting of leading dots only has no
extension). -/
theorem c2_amended (env : Env) (input : PyStr) (h : IsUuidStr env.uuidStr) :
    normalize_filename env input ≠ [] ∧
    endsWithList (normalize_filename env input)
      (((splitext (env.nfc input)).2).map pyLowerChar) = true := by
  refine ⟨normalize_ne_nil env input h, ?_⟩
  unfold normalize_filename
  exact endsWithList_append _ _

/-- C2 amended, witness at a concrete input and environment. -/
theorem c2_amended_witness :
    normalize_filename envW ("x.TXT".toList) ≠ [] ∧
    endsWithList (normalize_filename envW ("x.TXT".toList))
      (((splitext (envW.nfc ("x.TXT".toList))).2).map pyLowerChar) = true :=
  c2_amended envW ("x.TXT".toList) (by decide)

/-- C3 counterexample: the input a.! is returned unchanged, and it
contains the character bang, which lies outside the claimed safe class;
the extension is reattached with no sanitization beyond lower-casing. -/
theorem c3_counterexample :
    normalize_filename envW ("a.!".toList) = "a.!".toList ∧
    (normalize_filename envW ("a.!".toList)).all isSafeChar = false := by
  decide

/-- C3 amended: the base of the output is non-empty and restricted to the
safe class A-Za-z0-9 underscore dot hyphen, and the whole output contains
no slash, hence no directory traversal; the reattached extension, however,
is only lower-cased, not sanitized. -/
theorem c3_amended (env : Env) (input : PyStr) (h : IsUuidStr env.uuidStr) :
    ∃ b, normalize_filename env input =
        b ++ ((splitext (env.nfc input)).2.map pyLowerChar) ∧
      b.all isSafeChar = true ∧ b ≠ [] ∧ '/' ∉ normalize_filename env input :=
  ⟨nfBase env (splitext (env.nfc input)).1, rfl,
    nfBase_all_safe env _ h, nfBase_ne_nil env _ h, normalize_no_slash env input h⟩

/-- C3 amended, witness at a concrete input and environment. -/
theorem c3_amended_witness :
    ∃ b, normalize_filename envW ("b.PDF".toList) =
        b ++ ((splitext (envW.nfc ("b.PDF".toList))).2.map pyLowerChar) ∧
      b.all isSafeChar = true ∧ b ≠ [] ∧
      '/' ∉ normalize_filename envW ("b.PDF".toList) :=
  c3_amended envW ("b.PDF".toList) (by decide)

/-- C4: the three documented values of format_file_size, and in general a
nonzero byte count is formatted as the count divided by 1024 at most three
times, with two decimal places, against the unit table B, KB, MB, GB. -/
theorem c4_format_file_size :
    format_file_size 0 = "0 B".toList ∧
    format_file_size 1536 = "1.50 KB".toList ∧
    format_file_size 1073741824 = "1.00 GB".toList ∧
    ∀ n : Nat, n ≠ 0 →
      ∃ k, k ≤ 3 ∧
        format_file_size n =
          fmt2fDiv n (1024 ^ k) ++ ' ' :: FFS_UNITS.getD k [] := by
  refine ⟨by decide, by decide, by decide, ?_⟩
  intro n hn
  refine ⟨ffsIdx 3 n 0, ffsIdx_le 3 n 0 (by omega), ?_⟩
  unfold format_file_size
  rw [if_neg hn]

/-- C4 witness: the general clause instantiated at a nonzero count. -/
theorem c4_witness :
    (5 : Nat) ≠ 0 ∧
    ∃ k, k ≤ 3 ∧
      format_file_size 5 = fmt2fDiv 5 (1024 ^ k) ++ ' ' :: FFS_UNITS.getD k [] :=
  ⟨by decide, c4_format_file_size.2.2.2 5 (by decide)⟩

/-- C5: uploading фото.jpg saves it under foto.jpg, which matches the
claimed shape: a non-empty base of lowercase letters, digits, underscores
or hyphens followed by .jpg. The hypotheses state facts the real
environment satisfies: NFC and NFKD fix these already-composed strings,
and the transliterate library is either absent or maps фото to foto. -/
theorem c5_cyrillic_upload (env : Env)
    (hnfc : env.nfc ("фото.jpg".toList) = "фото.jpg".toList)
    (hk1 : env.nfkd ("фото".toList) = "фото".toList)
    (hk2 : env.nfkd ("foto".toList) = "foto".toList)
    (ht : env.translit = none ∨
      ∃ tf, env.translit = some tf ∧ tf ("фото".toList) = Except.ok ("foto".toList)) :
    normalize_filename env ("фото.jpg".toList) = "foto.jpg".toList ∧
    matchesLowerJpg (normalize_filename env ("фото.jpg".toList)) = true := by
  have hsec1 : secure_filename env.nfkd ("фото".toList) = [] := by
    unfold secure_filename
    rw [hk1]
    decide
  have hsec2 : secure_filename env.nfkd ("foto".toList) = "foto".toList := by
    unfold secure_filename
    rw [hk2]
    decide
  have hman : manual_transliterate ("фото".toList) = "foto".toList := by decide
  have hts : nfTranslitStep env ("фото".toList) [] = [] ∨
      nfTranslitStep env ("фото".toList) [] = "foto".toList := by
    rcases ht with htl | ⟨tf, htl, htf⟩
    · left; simp only [nfTranslitStep, htl]
    · right; simp only [nfTranslitStep, htl, htf, hsec2]
  have hsafe1 : nfSafe1 env ("фото".toList) = "foto".toList := by
    unfold nfSafe1
    rw [hsec1, if_pos (by decide)]
    rcases hts with hts | hts
    · rw [hts, if_pos (by decide), hman, hsec2]
    · rw [hts, if_neg (by decide)]
  have hbase : nfBase env ("фото".toList) = "foto".toList := by
    unfold nfBase
    rw [hsafe1, if_neg (by decide)]
  have hsplit : splitext (("фото.jpg".toList)) = ("фото".toList, ".jpg".toList) := by
    decide
  have hres : normalize_filename env ("фото.jpg".toList) = "foto.jpg".toList := by
    unfold normalize_filename
    rw [hnfc, hsplit]
    show nfBase env ("фото".toList) ++ ((".jpg".toList).map pyLowerChar) =
      "foto.jpg".toList
    rw [hbase]
    decide
  refine ⟨hres, ?_⟩
  rw [hres]
  decide

/-- C5 witness: the concrete environment with the library absent
satisfies every hypothesis. -/
theorem c5_witness :
    normalize_filename envW ("фото.jpg".toList) = "foto.jpg".toList ∧
    matchesLowerJpg (normalize_filename envW ("фото.jpg".toList)) = true :=
  c5_cyrillic_upload envW rfl rfl rfl (Or.inl rfl)

/-- C6 counterexample: os.path.splitext leaves the base of .gitignore as
the whole name, not empty, the sanitizer strips the leading dot, and the
result is the fixed string gitignore rather than the claimed uuid token
plus extension. -/
theorem c6_counterexample :
    (splitext (".gitignore".toList)).1 = ".gitignore".toList ∧
    (splitext (".gitignore".toList)).1 ≠ [] ∧
    normalize_filename envW (".gitignore".toList) = "gitignore".toList ∧
    normalize_filename envW (".gitignore".toList) ≠
      envW.uuidStr.take 8 ++
        ((splitext (envW.nfc (".gitignore".toList))).2.map pyLowerChar) := by
  decide

/-- C6 amended: for a filename that is only an extension, such as
.gitignore, os.path.splitext yields the whole name as base and an empty
extension; the sanitizer strips the leading dot, leaving the non-empty
base gitignore, so the uuid fallback is not taken and the deterministic
result is gitignore. -/
theorem c6_amended (env : Env)
    (h1 : env.nfc (".gitignore".toList) = ".gitignore".toList)
    (h2 : env.nfkd (".gitignore".toList) = ".gitignore".toList) :
    normalize_filename env (".gitignore".toList) = "gitignore".toList := by
  have hsec : secure_filename env.nfkd (".gitignore".toList) = "gitignore".toList := by
    unfold secure_filename
    rw [h2]
    decide
  have hsafe1 : nfSafe1 env (".gitignore".toList) = "gitignore".toList := by
    unfold nfSafe1
    rw [hsec, if_neg (by decide)]
  have hbase : nfBase env (".gitignore".toList) = "gitignore".toList := by
    unfold nfBase
    rw [hsafe1, if_neg (by decide)]
  unfold normalize_filename
  rw [h1]
  have hsplit : splitext (".gitignore".toList) = (".gitignore".toList, []) := by decide
  rw [hsplit]
  show nfBase env (".gitignore".toList) ++ (([] : PyStr).map pyLowerChar) =
    "gitignore".toList
  rw [hbase]
  decide

/-- C6 amended, witness at the concrete environment. -/
theorem c6_amended_witness :
    normalize_filename envW (".gitignore".toList) = "gitignore".toList :=
  c6_amended envW rfl rfl

/-- C7: on an input whose base the strict sanitizer leaves unchanged and
non-empty, the function returns the input unchanged except that the
extension is lower-cased; the transliteration and uuid steps are not
taken. -/
theorem c7_idempotent (env : Env) (input name ext : PyStr)
    (hnfc : env.nfc input = input)
    (hsplit : splitext input = (name, ext))
    (hfix : secure_filename env.nfkd name = name)
    (hne : isEmptyish name = false) :
    normalize_filename env input = name ++ ext.map pyLowerChar ∧
    name ++ ext = input := by
  constructor
  · have hsafe1 : nfSafe1 env name = name := by
      unfold nfSafe1
      rw [hfix, if_neg (by rw [hne]; exact Bool.false_ne_true)]
    have hbase : nfBase env name = name := by
      unfold nfBase
      rw [hsafe1, if_neg (by rw [hne]; exact Bool.false_ne_true)]
    unfold normalize_filename
    rw [hnfc, hsplit]
    show nfBase env name ++ (ext.map pyLowerChar) = name ++ ext.map pyLowerChar
    rw [hbase]
  · have happ := splitext_append input
    rw [hsplit] at happ
    exact happ

/-- C7 witness: an already-safe mixed-case input. -/
theorem c7_witness :
    normalize_filename envW ("Report-1.TXT".toList) =
        "Report-1".toList ++ (".TXT".toList.map pyLowerChar) ∧
      "Report-1".toList ++ ".TXT".toList = "Report-1.TXT".toList :=
  c7_idempotent envW ("Report-1.TXT".toList) ("Report-1".toList) (".TXT".toList)
    rfl (by decide) (by decide) (by decide)

/-- C8: deleting a filename whose joined path is not stored leaves the
directory unchanged, flashes the error notice built from the
FileNotFoundError text, and still returns the redirect to the index page;
nothing propagates to the client. -/
theorem c8_delete_missing (fs : List PyStr) (filename : PyStr)
    (h : os_path_join LOCAL_UPLOAD_DIR filename ∉ fs) :
    delete_route fs filename =
      (fs,
       ⟨"Error deleting file: ".toList ++ "No such file or directory".toList,
        "error".toList⟩,
       HttpResp.redirectIndex) := by
  unfold delete_route os_remove
  rw [if_neg h]

/-- C8 witness: deleting from an empty directory. -/
theorem c8_witness :
    delete_route [] ("nope.txt".toList) =
      ([],
       ⟨"Error deleting file: ".toList ++ "No such file or directory".toList,
        "error".toList⟩,
       HttpResp.redirectIndex) :=
  c8_delete_missing [] ("nope.txt".toList) (by decide)

/-- C9: with a well-formed uuid string in the environment,
normalize_filename never returns an empty string, so the invalid-filename
branch of the upload route is unreachable whenever a file field is
present. -/
theorem c9_invalid_branch_unreachable (env : Env) (raw : PyStr)
    (h : IsUuidStr env.uuidStr) :
    upload_route env (some raw) ≠ UploadOutcome.invalidName := by
  have hne : normalize_filename env raw ≠ [] := normalize_ne_nil env raw h
  simp only [upload_route]
  rw [if_neg (by simpa [List.isEmpty_iff] using hne)]
  intro hc
  exact UploadOutcome.noConfusion hc

/-- C9 witness at a concrete raw name and environment. -/
theorem c9_witness :
    upload_route envW (some ("a".toList)) ≠ UploadOutcome.invalidName :=
  c9_invalid_branch_unreachable envW ("a".toList) (by decide)

/-- C10: preview classification is invariant under lower-casing the
filename first, so a name and its lower-cased form are classified
identically; the comparison the route makes is on the lower-cased name
against fixed lowercase suffixes. -/
theorem c10_classify_case_insensitive (filename : PyStr) :
    preview_classify (filename.map pyLowerChar) = preview_classify filename := by
  unfold preview_classify
  rw [List.map_map]
  have hmm : filename.map (pyLowerChar ∘ pyLowerChar) = filename.map pyLowerChar :=
    List.map_congr_left (fun a _ => pyLowerChar_idem a)
  rw [hmm]

end App
